import Mathlib

/-!
# HorseDashboard: the race / racecourse-coordinate join

A verification development for `src/data/races.csv.js`, the data loader that
joins `races.csv` with `racecourseCoords.csv` on the course name and prints the
enriched table.

The script is embedded shallowly:

* JavaScript values that can occur in a parsed row are the type `Value`;
* a plain JavaScript object is the list of its own properties in enumeration
  order (`JSObject`), with `setProp` following the ordering of ordinary objects
  (array-index keys ascending first, then string keys in creation order);
* `new Map(...)` is an association list in insertion order whose key equality
  is SameValueZero (`JSMap`);
* the top-level statements of the script are the function `script`, which
  threads the standard output explicitly; `run` adds the exit code of the
  process;
* `fs.readFileSync` and the `d3-dsv` functions are not defined by the script:
  they are the fields of `Env`, and where a property needs more of the loader
  or the formatter than that, the definition is marked as modelled from the
  specification.
-/

namespace HorseDashboard

/-! ## JavaScript values -/

/-- An IEEE-754 binary64 number, given by its 64-bit pattern
(sign bit 63, exponent bits 62..52, fraction bits 51..0). -/
structure Number where
  bits : Nat
deriving DecidableEq, Repr

/-- Exponent all ones and a non-zero fraction. -/
def Number.isNaN (n : Number) : Bool :=
  (n.bits / 2 ^ 52) % 2 ^ 11 == 2047 && n.bits % 2 ^ 52 != 0

/-- Both `+0` and `-0`: everything below the sign bit is zero. -/
def Number.isZero (n : Number) : Bool :=
  n.bits % 2 ^ 63 == 0

/-- The values a field of a parsed row can hold (what `autoType` produces:
`null`, booleans, numbers, `Date` objects, strings), together with
`undefined`, the result of reading a property that is not there.
A `Date` is an object: it carries the identity `ref` of the object and its
time value in milliseconds (`none` for an invalid date). -/
inductive Value where
  | undefined
  | null
  | bool (b : Bool)
  | num (n : Number)
  | str (s : String)
  | date (ref : Nat) (time : Option Int)
deriving DecidableEq, Repr

/-- SameValueZero, the key equality of `Map`: `NaN` equals `NaN`, `+0` equals
`-0`, objects (here: dates) are equal when they are the same object. -/
def sameValueZero : Value → Value → Bool
  | .undefined, .undefined => true
  | .null, .null => true
  | .bool a, .bool b => a == b
  | .num a, .num b => (a.isNaN && b.isNaN) || (a.isZero && b.isZero) || a.bits == b.bits
  | .str a, .str b => a == b
  | .date r _, .date s _ => r == s
  | _, _ => false

/-! ## Plain objects -/

/-- A plain object: its own enumerable string-keyed properties, in the order
in which `for … in`, `Object.keys` and spread visit them. -/
abbrev JSObject := List (String × Value)

/-- The own property `k` of `o`, if there is one. -/
def own? (o : JSObject) (k : String) : Option Value :=
  match o with
  | [] => none
  | (k', v) :: rest => if k' = k then some v else own? rest k

/-- The property read `o.k` (the prototype of a plain object has none of the
properties read by the script): `undefined` when `o` has no own property `k`. -/
def getProp (o : JSObject) (k : String) : Value :=
  (own? o k).getD Value.undefined

/-- The names of the own properties, in enumeration order. -/
def keys (o : JSObject) : List String :=
  o.map Prod.fst

/-- A property key is an array index when it is the canonical decimal form of
an integer in `[0, 2^32 - 2]`. -/
def arrayIndex? (k : String) : Option Nat :=
  let cs := k.toList
  if cs.isEmpty || !cs.all Char.isDigit then none
  else if cs.head? == some '0' && 1 < cs.length then none
  else
    let n := cs.foldl (fun a c => 10 * a + (c.toNat - 48)) 0
    if n < 2 ^ 32 - 1 then some n else none

/-- Place a new array-index property `n` among the properties of an ordinary
object: after every array index below `n`, before everything else. -/
def insertIndex (n : Nat) (k : String) (v : Value) : JSObject → JSObject
  | [] => [(k, v)]
  | (k', v') :: rest =>
    match arrayIndex? k' with
    | some m => if m < n then (k', v') :: insertIndex n k v rest else (k, v) :: (k', v') :: rest
    | none => (k, v) :: (k', v') :: rest

/-- The order of enumeration of an ordinary object between two of its property
names: an array index comes before a larger array index and before every name
that is not an array index; names that are not array indices come in the order
of their creation, whatever they are. -/
def enumeratesBefore (a b : String) : Bool :=
  match arrayIndex? a, arrayIndex? b with
  | some m, some n => m < n
  | some _, none => true
  | none, some _ => false
  | none, none => true

/-- Overwrite the value of the property `k` where it stands. -/
def replaceProp (k : String) (v : Value) : JSObject → JSObject
  | [] => []
  | (k', v') :: rest => if k' = k then (k', v) :: rest else (k', v') :: replaceProp k v rest

/-- CreateDataProperty on an ordinary object, as done by an object literal
`{…, k: v}` and by spread: an existing property keeps its place and gets the
new value; a new property is enumerated after the existing ones, except that
array-index keys come first in ascending order. -/
def setProp (o : JSObject) (k : String) (v : Value) : JSObject :=
  match own? o k with
  | some _ => replaceProp k v o
  | none =>
    match arrayIndex? k with
    | some n => insertIndex n k v o
    | none => o ++ [(k, v)]

/-- The spread `{...o}`: a fresh object that receives the own properties of
`o` one by one, in the enumeration order of `o`. -/
def spread (o : JSObject) : JSObject :=
  o.foldl (fun acc kv => setProp acc kv.1 kv.2) []

/-! ## `Map` -/

/-- A `Map`: its entries in insertion order. -/
abbrev JSMap (β : Type) := List (Value × β)

/-- The key stored by `Map.prototype.set`: `-0` is stored as `+0`. -/
def normalizeKey : Value → Value
  | .num n => if n.isZero then .num ⟨0⟩ else .num n
  | v => v

/-- Overwrite the value of the entry whose key is SameValueZero-equal to `k`. -/
def replaceEntry {β : Type} (k : Value) (v : β) : JSMap β → JSMap β
  | [] => []
  | (k', v') :: rest =>
    if sameValueZero k' k then (k', v) :: rest else (k', v') :: replaceEntry k v rest

/-- The method `Map.prototype.get`: the value of the entry whose key is
SameValueZero-equal to `k`; `none` stands for the result `undefined`. -/
def JSMap.get {β : Type} (m : JSMap β) (k : Value) : Option β :=
  match m with
  | [] => none
  | (k', v) :: rest => if sameValueZero k' k then some v else JSMap.get rest k

/-- The method `Map.prototype.set`: an existing entry is updated in place, a new one
is appended. -/
def JSMap.set {β : Type} (m : JSMap β) (k : Value) (v : β) : JSMap β :=
  match JSMap.get m k with
  | some _ => replaceEntry k v m
  | none => m ++ [(normalizeKey k, v)]

/-- The constructor `new Map(entries)`: the entries are `set` from first to last. -/
def JSMap.ofEntries {β : Type} (entries : List (Value × β)) : JSMap β :=
  entries.foldl (fun m e => JSMap.set m e.1 e.2) []

/-! ## The join (`races.csv.js`, lines 17-27) -/

/-- ToBoolean of the result of `coordMap.get(…)`: `undefined` is falsy, an
object is truthy whatever its properties hold. -/
def truthy (c : Option JSObject) : Bool :=
  c.isSome

/-- The arrow function `c => [c.name, { x: c.x, y: c.y }]`: the `Map` entry
made from one coordinate record. -/
def coordEntry (c : JSObject) : Value × JSObject :=
  (getProp c "name", setProp (setProp [] "x" (getProp c "x")) "y" (getProp c "y"))

/-- The script's `coordMap`, i.e.
`new Map(coords.map(c => [c.name, { x: c.x, y: c.y }]))`. -/
def coordMap (coords : List JSObject) : JSMap JSObject :=
  JSMap.ofEntries (coords.map coordEntry)

/-- The conditional `c ? c.k : null` on the result `c` of `coordMap.get(…)`.
The property read happens only on the truthy branch, where `c` is an object. -/
def orNull (c : Option JSObject) (k : String) : Value :=
  if truthy c then (c.map fun o => getProp o k).getD Value.undefined else Value.null

/-- The body of the arrow function mapped over `races`:
`{ ...race, course_x: c ? c.x : null, course_y: c ? c.y : null }`
with `c = coordMap.get(race.course)`. -/
def joinRace (cm : JSMap JSObject) (race : JSObject) : JSObject :=
  let c := JSMap.get cm (getProp race "course")
  setProp (setProp (spread race) "course_x" (orNull c "x")) "course_y" (orNull c "y")

/-- The script's `joinedData`, i.e. `races.map(race => …)`. -/
def joinedData (races coords : List JSObject) : List JSObject :=
  races.map (joinRace (coordMap coords))

/-- The last record of `coords`, in list order, whose `name` is the key `k`
(keys compared as `Map` compares them). -/
def lastMatching : List JSObject → Value → Option JSObject
  | [], _ => none
  | c :: cs, k =>
    match lastMatching cs k with
    | some c' => some c'
    | none => if sameValueZero (getProp c "name") k then some c else none

/-! ## The script as a process (`races.csv.js`, lines 7-30) -/

/-- An exception thrown while the script runs. -/
inductive Thrown where
  | inputMissing (file : String)
  | parseMalformed
  | other (message : String)
deriving DecidableEq, Repr

/-- What the script calls but does not define: `fs.readFileSync` on a file
next to the script (`path.join(__dirname, file)`, encoding `"utf8"`), and the
`d3-dsv` functions `csvParse(·, autoType)` and `csvFormat`. Each either
returns or throws. -/
structure Env where
  readFileSync : String → Except Thrown String
  csvParse : String → Except Thrown (List JSObject)
  csvFormat : List JSObject → Except Thrown String

/-- The observable result of a run: the chunks written to standard output, in
order, and the exit code of the process. -/
structure Outcome where
  stdout : List String
  exitCode : Nat
deriving DecidableEq, Repr

/-- The top-level statements of the script, in order, starting with `out`
already written to standard output. A statement that throws ends the
evaluation; what was written before stays written. -/
def script (env : Env) (out : List String) : Except Thrown Unit × List String :=
  match env.readFileSync "races.csv" with
  | .error e => (.error e, out)
  | .ok racesRaw =>
    match env.readFileSync "racecourseCoords.csv" with
    | .error e => (.error e, out)
    | .ok coordsRaw =>
      match env.csvParse racesRaw with
      | .error e => (.error e, out)
      | .ok races =>
        match env.csvParse coordsRaw with
        | .error e => (.error e, out)
        | .ok coords =>
          match env.csvFormat (joinedData races coords) with
          | .error e => (.error e, out)
          | .ok text => (.ok (), out ++ [text])

/-- Running the script as a Node process: exit code `0` when the module
evaluates to its end, `1` when an exception is left uncaught. -/
def run (env : Env) : Outcome :=
  match script env [] with
  | (.ok _, out) => { stdout := out, exitCode := 0 }
  | (.error _, out) => { stdout := out, exitCode := 1 }

/-! ## The loader and the formatter, after the specification -/

/-- The example of malformed content in sections 4.1 and 7 of the
specification, "unbalanced quoting" / "unterminated quoted field": with quote
characters opening and closing quoted fields and an embedded quote written
twice, the text ends inside a quoted field when it holds an odd number of
quote characters. -/
def unbalancedQuoting (text : String) : Bool :=
  text.toList.count '"' % 2 == 1

/-- A delimited-text file after tokenizing and type inference: the column names
of its first line, and the typed fields of every further line. -/
structure Table where
  header : List String
  rows : List (List Value)
deriving DecidableEq, Repr

/-- Modelled from the spec: the record of one line, as built by the loader of
`d3-dsv` (not part of the sources). Section 4.1: a record maps each column
name to the typed value of that column; a field that is not there is empty,
hence `null`. The record is a plain object whose properties are defined in
column order. -/
def rowObject (header : List String) (row : List Value) : JSObject :=
  (header.enum).foldl (fun o ik => setProp o ik.2 (row.getD ik.1 Value.null)) []

/-- Modelled from the spec: the records of a file, one per line after the
header, in file order (section 4.1). -/
def recordsOf (t : Table) : List JSObject :=
  t.rows.map (rowObject t.header)

/-- Modelled from the spec: the columns of the formatter of `d3-dsv` (not part
of the sources), which is called without a column list. Section 4.2, step 3:
the columns are the field names in first-occurrence order across the joined
sequence. -/
def columnsOf (rows : List JSObject) : List String :=
  rows.foldl
    (fun cols row => (keys row).foldl (fun cols k => if k ∈ cols then cols else cols ++ [k]) cols)
    []

/-- Modelled from the spec: what the formatter of `d3-dsv` (not part of the
sources) emits, cell by cell. Section 4.3: a header row of column names,
then one line per record, holding the record's value for each column. -/
def formatCells (rows : List JSObject) : Table :=
  { header := columnsOf rows
    rows := rows.map fun r => (columnsOf rows).map (getProp r) }

/-- The cells printed for a races file `t` and the coordinate records `coords`:
load, join, format. -/
def outputCells (t : Table) (coords : List JSObject) : Table :=
  formatCells (joinedData (recordsOf t) coords)

/-- The columns the specification expects in the output for the header `K`:
`K`, then `course_x` and `course_y` unless `K` has them already. -/
def expectedHeader (K : List String) : List String :=
  K ++ (if "course_x" ∈ K then [] else ["course_x"])
    ++ (if "course_y" ∈ K then [] else ["course_y"])

/-! ## Example data -/

/-- The number `0` (that is `+0`). -/
def zero : Value := Value.num ⟨0⟩

/-- The number `10`. -/
def ten : Value := Value.num ⟨0x4024000000000000⟩

/-- The number `20`. -/
def twenty : Value := Value.num ⟨0x4034000000000000⟩

/-- The number `1600`. -/
def sixteenHundred : Value := Value.num ⟨0x4099000000000000⟩

/-- The number `2000`. -/
def twoThousand : Value := Value.num ⟨0x409f400000000000⟩

/-- The race `{course: "Tokyo", distance: 2000}`. -/
def tokyoRace : JSObject := [("course", Value.str "Tokyo"), ("distance", twoThousand)]

/-- The race `{course: "Unknown", distance: 1600}`. -/
def unknownRace : JSObject := [("course", Value.str "Unknown"), ("distance", sixteenHundred)]

/-- The coordinate record `{name: "Tokyo", x: 10, y: 20}`. -/
def tokyoCoord : JSObject := [("name", Value.str "Tokyo"), ("x", ten), ("y", twenty)]

/-- A later record for the same course with falsy coordinates,
`{name: "Tokyo", x: 0, y: null}`. -/
def tokyoCoordLater : JSObject := [("name", Value.str "Tokyo"), ("x", zero), ("y", Value.null)]

/-- The coordinate record `{name: "Kyoto", x: 20, y: 10}`. -/
def kyotoCoord : JSObject := [("name", Value.str "Kyoto"), ("x", twenty), ("y", ten)]

/-- A race read from a file that already has a column `course_x`:
`{course: "Tokyo", course_x: "inner"}`. -/
def raceWithCourseX : JSObject := [("course", Value.str "Tokyo"), ("course_x", Value.str "inner")]

/-- A races file with a column named `1`:
header `course,1`, one line `Tokyo,2000`. -/
def indexColumnTable : Table :=
  { header := ["course", "1"], rows := [[Value.str "Tokyo", twoThousand]] }

/-- A races file with two columns of the same name:
header `course,course`, one line `Tokyo,2000`. -/
def repeatedColumnTable : Table :=
  { header := ["course", "course"], rows := [[Value.str "Tokyo", twoThousand]] }

/-- A races file that has a header line and no further line:
header `course,distance`. -/
def headerOnlyTable : Table :=
  { header := ["course", "distance"], rows := [] }

/-- The races file of the scenario: header `course,distance`, lines
`Tokyo,2000` and `Unknown,1600`. -/
def scenarioTable : Table :=
  { header := ["course", "distance"],
    rows := [[Value.str "Tokyo", twoThousand], [Value.str "Unknown", sixteenHundred]] }

/-- A library that never throws: parsing yields no record, formatting yields
the empty text. -/
def quietParse (_ : String) : Except Thrown (List JSObject) := .ok []

/-- See `quietParse`. -/
def quietFormat (_ : List JSObject) : Except Thrown String := .ok ""

/-- A directory in which `races.csv` is missing and `racecourseCoords.csv` is
readable. -/
def envRacesMissing : Env :=
  { readFileSync := fun file =>
      if file = "racecourseCoords.csv" then .ok "name,x,y\nTokyo,10,20"
      else .error (Thrown.inputMissing file)
    csvParse := quietParse
    csvFormat := quietFormat }

/-- A directory with both files, and a library that never throws. -/
def envBothReadable : Env :=
  { readFileSync := fun file =>
      if file = "races.csv" then .ok "course,distance\nTokyo,2000"
      else if file = "racecourseCoords.csv" then .ok "name,x,y\nTokyo,10,20"
      else .error (Thrown.inputMissing file)
    csvParse := quietParse
    csvFormat := quietFormat }

/-- A loader that returns on every text, well formed or not: the one record
`{course: "Tokyo"}` for a `races.csv` that ends inside the quoted field
`"Tokyo`, the record `{name: "Tokyo", x: 10, y: 20}` for the coordinates of
the scenario, and no record for any other text. -/
def lenientParse (text : String) : Except Thrown (List JSObject) :=
  if text = "course\n\"Tokyo" then .ok [[("course", Value.str "Tokyo")]]
  else if text = "name,x,y\nTokyo,10,20" then .ok [tokyoCoord]
  else .ok []

/-- A formatter that returns the header line of its records. -/
def headerLineFormat (rows : List JSObject) : Except Thrown String :=
  .ok (String.intercalate "," (columnsOf rows))

/-- A loader that throws on every text. -/
def strictParse (_ : String) : Except Thrown (List JSObject) :=
  .error Thrown.parseMalformed

/-- A directory with both files, `races.csv` ending inside a quoted field, and
a loader that returns on it. -/
def envUnterminatedQuote : Env :=
  { readFileSync := fun file =>
      if file = "races.csv" then .ok "course\n\"Tokyo"
      else if file = "racecourseCoords.csv" then .ok "name,x,y\nTokyo,10,20"
      else .error (Thrown.inputMissing file)
    csvParse := lenientParse
    csvFormat := headerLineFormat }

/-- The same directory with a loader that throws. -/
def envParseThrows : Env :=
  { readFileSync := envUnterminatedQuote.readFileSync
    csvParse := strictParse
    csvFormat := headerLineFormat }

/-- A races file that already has a column `course_x`:
header `course,course_x`, one line `Tokyo,inner`. -/
def courseXColumnTable : Table :=
  { header := ["course", "course_x"], rows := [[Value.str "Tokyo", Value.str "inner"]] }

/-! ## SameValueZero is an equivalence -/

theorem sameValueZero_refl (a : Value) : sameValueZero a a = true := by
  cases a <;> simp [sameValueZero]

theorem sameValueZero_symm (a b : Value) : sameValueZero a b = sameValueZero b a := by
  cases a <;> cases b <;> simp [sameValueZero, Bool.and_comm, eq_comm]
  case num.num x y => rw [BEq.comm]

theorem sameValueZero_trans {a b c : Value} (hab : sameValueZero a b = true)
    (hbc : sameValueZero b c = true) : sameValueZero a c = true := by
  cases a <;> cases b <;> cases c <;> simp_all [sameValueZero]
  case num.num.num x y z =>
    simp only [Number.isNaN, Number.isZero, Bool.and_eq_true, beq_iff_eq, bne_iff_ne,
      ne_eq] at *
    omega

/-- Equal keys look up alike. -/
theorem sameValueZero_congr_left {a b : Value} (hab : sameValueZero a b = true) (c : Value) :
    sameValueZero a c = sameValueZero b c := by
  cases h : sameValueZero b c
  · cases h' : sameValueZero a c
    · rfl
    · rw [sameValueZero_symm] at hab
      rw [sameValueZero_trans hab h'] at h
      exact absurd h (by simp)
  · exact sameValueZero_trans hab h

theorem sameValueZero_normalizeKey (k k' : Value) :
    sameValueZero (normalizeKey k) k' = sameValueZero k k' := by
  apply sameValueZero_congr_left
  cases k <;> try exact sameValueZero_refl _
  case num n =>
    by_cases hz : n.isZero = true
    · simp only [normalizeKey, hz, if_true, sameValueZero, Bool.or_eq_true, Bool.and_eq_true]
      left; right
      exact ⟨by decide, trivial⟩
    · simp only [normalizeKey, hz]
      exact sameValueZero_refl _

/-! ## `Map` lookups -/

theorem JSMap.get_replaceEntry {β : Type} (m : JSMap β) (k k' : Value) (v : β)
    (h : (JSMap.get m k).isSome = true) :
    JSMap.get (replaceEntry k v m) k' = if sameValueZero k k' then some v else JSMap.get m k' := by
  induction m with
  | nil => simp [JSMap.get] at h
  | cons e rest ih =>
    obtain ⟨k0, v0⟩ := e
    by_cases h0 : sameValueZero k0 k = true
    · simp only [replaceEntry, h0, if_true, JSMap.get]
      rw [sameValueZero_congr_left h0 k']
      split <;> rfl
    · simp only [Bool.not_eq_true] at h0
      have hrest : (JSMap.get rest k).isSome = true := by
        simpa [JSMap.get, h0] using h
      simp only [replaceEntry, h0, JSMap.get]
      by_cases h1 : sameValueZero k0 k' = true
      · have : sameValueZero k k' = false := by
          cases hk : sameValueZero k k'
          · rfl
          · rw [sameValueZero_symm] at hk
            rw [sameValueZero_trans h1 hk] at h0
            exact absurd h0 (by simp)
        simp [h1, this]
      · simp only [Bool.not_eq_true] at h1
        simp [h1, ih hrest]

theorem JSMap.get_append_single {β : Type} (m : JSMap β) (k0 k' : Value) (v : β) :
    JSMap.get (m ++ [(k0, v)]) k' =
      match JSMap.get m k' with
      | some w => some w
      | none => if sameValueZero k0 k' then some v else none := by
  induction m with
  | nil => simp [JSMap.get]
  | cons e rest ih =>
    obtain ⟨k1, v1⟩ := e
    by_cases h1 : sameValueZero k1 k' = true
    · simp [JSMap.get, h1]
    · simp only [Bool.not_eq_true] at h1
      simp [JSMap.get, h1, ih]

/-- After `m.set(k, v)`, a key equal to `k` maps to `v` and every other key is
as before. -/
theorem JSMap.get_set {β : Type} (m : JSMap β) (k k' : Value) (v : β) :
    JSMap.get (JSMap.set m k v) k' = if sameValueZero k k' then some v else JSMap.get m k' := by
  unfold JSMap.set
  cases hg : JSMap.get m k with
  | some w => exact JSMap.get_replaceEntry m k k' v (by simp [hg])
  | none =>
    simp only [JSMap.get_append_single, sameValueZero_normalizeKey]
    cases hg' : JSMap.get m k' with
    | none => rfl
    | some w =>
      have : sameValueZero k k' = false := by
        cases hk : sameValueZero k k'
        · rfl
        · exfalso
          have key : ∀ (m : JSMap β), JSMap.get m k = none → JSMap.get m k' = none := by
            intro m
            induction m with
            | nil => intro _; rfl
            | cons e rest ih =>
              obtain ⟨k1, v1⟩ := e
              intro hn
              by_cases h1 : sameValueZero k1 k = true
              · simp [JSMap.get, h1] at hn
              · simp only [Bool.not_eq_true] at h1
                simp only [JSMap.get, h1] at hn
                have h2 : sameValueZero k1 k' = false := by
                  cases h2 : sameValueZero k1 k'
                  · rfl
                  · rw [sameValueZero_symm k k'] at hk
                    rw [sameValueZero_trans h2 hk] at h1
                    exact absurd h1 (by simp)
                simp [JSMap.get, h2, ih hn]
          rw [key m hg] at hg'
          exact absurd hg' (by simp)
      simp [this]

theorem coordEntry_snd (c : JSObject) :
    (coordEntry c).2 = [("x", getProp c "x"), ("y", getProp c "y")] := by
  rfl

theorem JSMap.get_foldl_set (coords : List JSObject) (m : JSMap JSObject) (k : Value) :
    JSMap.get ((coords.map coordEntry).foldl (fun m e => JSMap.set m e.1 e.2) m) k =
      match lastMatching coords k with
      | some c => some (coordEntry c).2
      | none => JSMap.get m k := by
  induction coords generalizing m with
  | nil => rfl
  | cons c cs ih =>
    simp only [List.map_cons, List.foldl_cons, ih, lastMatching]
    cases lastMatching cs k with
    | some c' => rfl
    | none =>
      simp only [JSMap.get_set]
      have : (coordEntry c).1 = getProp c "name" := rfl
      rw [this]
      split <;> rfl

/-- What `coordMap.get(k)` returns: the `{x, y}` object of the last record
whose name is `k`, or `undefined` when there is none. -/
theorem get_coordMap (coords : List JSObject) (k : Value) :
    JSMap.get (coordMap coords) k = (lastMatching coords k).map fun c => (coordEntry c).2 := by
  unfold coordMap JSMap.ofEntries
  rw [JSMap.get_foldl_set]
  cases lastMatching coords k <;> rfl

theorem lastMatching_append (A B : List JSObject) (k : Value) :
    lastMatching (A ++ B) k =
      match lastMatching B k with
      | some c => some c
      | none => lastMatching A k := by
  induction A with
  | nil => simp only [List.nil_append, lastMatching]; cases lastMatching B k <;> rfl
  | cons a A ih =>
    rw [List.cons_append]
    simp only [lastMatching]
    rw [ih]
    cases lastMatching B k <;> rfl

theorem lastMatching_eq_none {coords : List JSObject} {k : Value}
    (h : ∀ c ∈ coords, sameValueZero (getProp c "name") k = false) :
    lastMatching coords k = none := by
  induction coords with
  | nil => rfl
  | cons c cs ih =>
    have h1 := h c (List.mem_cons_self _ _)
    have h2 := ih fun c' hc' => h c' (List.mem_cons_of_mem _ hc')
    simp [lastMatching, h1, h2]

theorem lastMatching_eq_none_iff (coords : List JSObject) (k : Value) :
    lastMatching coords k = none ↔
      ∀ c ∈ coords, sameValueZero (getProp c "name") k = false := by
  constructor
  · intro h
    induction coords with
    | nil => intro c hc; cases hc
    | cons c cs ih =>
      simp only [lastMatching] at h
      cases hcs : lastMatching cs k with
      | some c' => simp [hcs] at h
      | none =>
        simp only [hcs] at h
        intro c' hc'
        rcases List.mem_cons.mp hc' with rfl | hc'
        · cases hn : sameValueZero (getProp c' "name") k
          · rfl
          · simp [hn] at h
        · exact ih hcs c' hc'
  · exact lastMatching_eq_none

/-- The defining property of `lastMatching`: the list splits around the found
record, which has the key as name, and no later record has. -/
theorem lastMatching_split (A B : List JSObject) (c : JSObject) (k : Value)
    (hc : sameValueZero (getProp c "name") k = true)
    (hB : ∀ b ∈ B, sameValueZero (getProp b "name") k = false) :
    lastMatching (A ++ c :: B) k = some c := by
  rw [lastMatching_append]
  simp [lastMatching, lastMatching_eq_none hB, hc]

/-- Among the records with a given name there is a last one. -/
theorem exists_last_split (coords : List JSObject) (k : Value)
    (h : ∃ c ∈ coords, sameValueZero (getProp c "name") k = true) :
    ∃ A c B, coords = A ++ c :: B ∧ sameValueZero (getProp c "name") k = true ∧
      ∀ b ∈ B, sameValueZero (getProp b "name") k = false := by
  induction coords with
  | nil =>
    obtain ⟨c, hc, _⟩ := h
    cases hc
  | cons c cs ih =>
    by_cases hcs : ∃ c' ∈ cs, sameValueZero (getProp c' "name") k = true
    · obtain ⟨A, c', B, hsplit, hc', hB⟩ := ih hcs
      exact ⟨c :: A, c', B, by rw [hsplit]; rfl, hc', hB⟩
    · have hnone : ∀ b ∈ cs, sameValueZero (getProp b "name") k = false := by
        intro b hb
        cases hbk : sameValueZero (getProp b "name") k
        · rfl
        · exact absurd ⟨b, hb, hbk⟩ hcs
      obtain ⟨c0, hc0, hk0⟩ := h
      rcases List.mem_cons.mp hc0 with rfl | hmem
      · exact ⟨[], c0, cs, rfl, hk0, hnone⟩
      · rw [hnone c0 hmem] at hk0
        cases hk0

/-! ## Properties of plain objects -/

theorem own?_eq_none {o : JSObject} {k : String} (h : k ∉ keys o) : own? o k = none := by
  induction o with
  | nil => rfl
  | cons e rest ih =>
    obtain ⟨k', v'⟩ := e
    simp only [keys, List.map_cons, List.mem_cons, not_or] at h
    have hne : ¬ k' = k := fun hk => h.1 hk.symm
    simp only [own?, hne, if_false]
    exact ih h.2

theorem own?_replaceProp (o : JSObject) (k k' : String) (v : Value)
    (h : (own? o k).isSome = true) :
    own? (replaceProp k v o) k' = if k = k' then some v else own? o k' := by
  induction o with
  | nil => simp [own?] at h
  | cons e rest ih =>
    obtain ⟨k0, v0⟩ := e
    by_cases h0 : k0 = k
    · subst h0
      simp only [replaceProp, if_true, own?]
      split <;> rfl
    · have hrest : (own? rest k).isSome = true := by simpa [own?, h0] using h
      simp only [replaceProp, h0, if_false, own?, ih hrest]
      by_cases h1 : k0 = k'
      · have : ¬ k = k' := fun hk => h0 (h1.trans hk.symm)
        simp [h1, this]
      · simp [h1]

theorem own?_insertIndex (o : JSObject) (n : Nat) (k k' : String) (v : Value)
    (h : own? o k = none) :
    own? (insertIndex n k v o) k' = if k = k' then some v else own? o k' := by
  induction o with
  | nil => simp [insertIndex, own?]
  | cons e rest ih =>
    obtain ⟨k0, v0⟩ := e
    have h0 : ¬ k0 = k := by
      intro hk
      simp [own?, hk] at h
    have hrest : own? rest k = none := by simpa [own?, h0] using h
    have hfront : own? ((k, v) :: (k0, v0) :: rest) k' =
        if k = k' then some v else own? ((k0, v0) :: rest) k' := by
      simp only [own?]
    unfold insertIndex
    split
    · split
      · simp only [own?, ih hrest]
        by_cases h1 : k0 = k'
        · have : ¬ k = k' := fun hk => h0 (h1.trans hk.symm)
          simp [h1, this]
        · simp [h1]
      · exact hfront
    · exact hfront

theorem own?_append_single (o : JSObject) (k k' : String) (v : Value) :
    own? (o ++ [(k, v)]) k' =
      match own? o k' with
      | some w => some w
      | none => if k = k' then some v else none := by
  induction o with
  | nil => simp [own?]
  | cons e rest ih =>
    obtain ⟨k0, v0⟩ := e
    by_cases h0 : k0 = k'
    · simp [own?, h0]
    · simp [own?, h0, ih]

/-- After `o[k] = v` on a plain object, `k` holds `v` and every other property
is as before. -/
theorem own?_setProp (o : JSObject) (k k' : String) (v : Value) :
    own? (setProp o k v) k' = if k = k' then some v else own? o k' := by
  unfold setProp
  cases hk : own? o k with
  | some w => exact own?_replaceProp o k k' v (by simp [hk])
  | none =>
    simp only
    split
    · exact own?_insertIndex o _ k k' v hk
    · rw [own?_append_single]
      by_cases h : k = k'
      · subst h; simp [hk]
      · simp only [h, if_false]
        cases own? o k' <;> rfl

theorem own?_foldl_setProp (l acc : JSObject) (k : String) (hnd : (keys l).Nodup) :
    own? (l.foldl (fun acc kv => setProp acc kv.1 kv.2) acc) k =
      match own? l k with
      | some v => some v
      | none => own? acc k := by
  induction l generalizing acc with
  | nil => rfl
  | cons e rest ih =>
    obtain ⟨k0, v0⟩ := e
    simp only [keys, List.map_cons, List.nodup_cons] at hnd
    simp only [List.foldl_cons, ih _ hnd.2, own?_setProp, own?]
    by_cases h0 : k0 = k
    · subst h0
      simp [own?_eq_none hnd.1]
    · simp only [h0, if_false]

/-- Spread copies every own property with its value. -/
theorem own?_spread (o : JSObject) (k : String) (hnd : (keys o).Nodup) :
    own? (spread o) k = own? o k := by
  unfold spread
  rw [own?_foldl_setProp o [] k hnd]
  cases own? o k <;> rfl

/-! ## The joined record -/

theorem own?_joinRace (cm : JSMap JSObject) (race : JSObject) (k : String) :
    own? (joinRace cm race) k =
      if "course_y" = k then some (orNull (JSMap.get cm (getProp race "course")) "y")
      else if "course_x" = k then some (orNull (JSMap.get cm (getProp race "course")) "x")
      else own? (spread race) k := by
  simp only [joinRace, own?_setProp]

theorem getProp_joinRace_course_x (cm : JSMap JSObject) (race : JSObject) :
    getProp (joinRace cm race) "course_x" = orNull (JSMap.get cm (getProp race "course")) "x" := by
  simp [getProp, own?_joinRace]

theorem getProp_joinRace_course_y (cm : JSMap JSObject) (race : JSObject) :
    getProp (joinRace cm race) "course_y" = orNull (JSMap.get cm (getProp race "course")) "y" := by
  simp [getProp, own?_joinRace]

theorem orNull_coordMap_of_last (coords : List JSObject) (k : Value) (c : JSObject)
    (h : lastMatching coords k = some c) (axis : String) (haxis : axis = "x" ∨ axis = "y") :
    orNull (JSMap.get (coordMap coords) k) axis = getProp c axis := by
  rw [get_coordMap, h]
  rcases haxis with rfl | rfl <;>
    simp [orNull, truthy, coordEntry_snd, getProp, own?]

theorem orNull_coordMap_of_none (coords : List JSObject) (k : Value)
    (h : lastMatching coords k = none) (axis : String) :
    orNull (JSMap.get (coordMap coords) k) axis = Value.null := by
  rw [get_coordMap, h]
  rfl

theorem joinedData_getElem? (races coords : List JSObject) (i : Nat) :
    (joinedData races coords)[i]? = (races[i]?).map (joinRace (coordMap coords)) := by
  simp [joinedData]

/-! ## The claims about the join -/

/-- C1: when at least one coordinate record has the `course` of the race
`R = races[i]` as its `name`, there is a last such record in list order (the
list of coordinates splits as `A ++ c :: B` with `c` of that name and no record
of `B` of that name), and the `i`-th joined record has `course_x = c.x` and
`course_y = c.y` for that last record `c`, whatever values `c.x` and `c.y` are
(zero, `null`, the empty string and `undefined` included) and for every race
with that course. -/
theorem joined_course_xy_of_last_match
    (races coords : List JSObject) (i : Nat) (R : JSObject)
    (hR : races[i]? = some R)
    (hex : ∃ c ∈ coords, sameValueZero (getProp c "name") (getProp R "course") = true) :
    ∃ J, (joinedData races coords)[i]? = some J ∧
      (∃ A c B, coords = A ++ c :: B ∧
        sameValueZero (getProp c "name") (getProp R "course") = true ∧
        ∀ b ∈ B, sameValueZero (getProp b "name") (getProp R "course") = false) ∧
      ∀ A c B, coords = A ++ c :: B →
        sameValueZero (getProp c "name") (getProp R "course") = true →
        (∀ b ∈ B, sameValueZero (getProp b "name") (getProp R "course") = false) →
        getProp J "course_x" = getProp c "x" ∧ getProp J "course_y" = getProp c "y" := by
  refine ⟨joinRace (coordMap coords) R, by simp [joinedData_getElem?, hR],
    exists_last_split coords _ hex, ?_⟩
  intro A c B hsplit hc hlast
  have hlm : lastMatching coords (getProp R "course") = some c :=
    hsplit ▸ lastMatching_split A B c _ hc hlast
  constructor
  · rw [getProp_joinRace_course_x]
    exact orNull_coordMap_of_last coords _ c hlm "x" (Or.inl rfl)
  · rw [getProp_joinRace_course_y]
    exact orNull_coordMap_of_last coords _ c hlm "y" (Or.inr rfl)

/-- C2: when no coordinate record has the `course` of the race `R = races[i]`
as its `name`, the join still produces the `i`-th joined record (the join is a
total function: nothing is raised), and that record has `course_x = null` and
`course_y = null`. -/
theorem joined_course_xy_null_of_no_match
    (races coords : List JSObject) (i : Nat) (R : JSObject)
    (hR : races[i]? = some R)
    (hno : ∀ c ∈ coords, sameValueZero (getProp c "name") (getProp R "course") = false) :
    ∃ J, (joinedData races coords)[i]? = some J ∧
      getProp J "course_x" = Value.null ∧ getProp J "course_y" = Value.null := by
  refine ⟨joinRace (coordMap coords) R, by simp [joinedData_getElem?, hR], ?_, ?_⟩
  · rw [getProp_joinRace_course_x]
    exact orNull_coordMap_of_none coords _ (lastMatching_eq_none hno) "x"
  · rw [getProp_joinRace_course_y]
    exact orNull_coordMap_of_none coords _ (lastMatching_eq_none hno) "y"

/-- C3: the join yields exactly one record per race record, for all lists of
races and coordinates (empty lists, repeated names, any number of matches). -/
theorem joinedData_length (races coords : List JSObject) :
    (joinedData races coords).length = races.length := by
  simp [joinedData]

/-- C4: the join keeps the order of the races. For every index `i` of a race
record `R = races[i]`, the `i`-th joined record is the record built from `R`:
it has the `course` of `R`, and its `course_x` / `course_y` are the result of
looking that course up in the coordinate map. -/
theorem joinedData_preserves_order
    (races coords : List JSObject) (i : Nat) (R : JSObject)
    (hR : races[i]? = some R) (hwf : (keys R).Nodup) :
    ∃ J, (joinedData races coords)[i]? = some J ∧
      J = joinRace (coordMap coords) R ∧
      getProp J "course" = getProp R "course" ∧
      getProp J "course_x" = orNull (JSMap.get (coordMap coords) (getProp R "course")) "x" ∧
      getProp J "course_y" = orNull (JSMap.get (coordMap coords) (getProp R "course")) "y" := by
  refine ⟨joinRace (coordMap coords) R, by simp [joinedData_getElem?, hR], rfl, ?_,
    getProp_joinRace_course_x _ _, getProp_joinRace_course_y _ _⟩
  simp [getProp, own?_joinRace, own?_spread R "course" hwf]

/-- C5, as the code has it: every field of the race record `R = races[i]`
other than `course_x` and `course_y` is a field of the `i`-th joined record,
with the value it has in `R`. -/
theorem joined_keeps_race_fields
    (races coords : List JSObject) (i : Nat) (R : JSObject) (k : String) (v : Value)
    (hR : races[i]? = some R) (hwf : (keys R).Nodup)
    (hx : k ≠ "course_x") (hy : k ≠ "course_y") (hk : own? R k = some v) :
    ∃ J, (joinedData races coords)[i]? = some J ∧ own? J k = some v := by
  refine ⟨joinRace (coordMap coords) R, by simp [joinedData_getElem?, hR], ?_⟩
  rw [own?_joinRace, if_neg (Ne.symm hy), if_neg (Ne.symm hx), own?_spread R k hwf, hk]

/-- C5 fails as stated: the race `{course: "Tokyo", course_x: "inner"}` has the
field `course_x` with the value `"inner"`, and joined against no coordinates
its record is `{course: "Tokyo", course_x: null, course_y: null}`. -/
theorem joined_overwrites_course_x :
    own? raceWithCourseX "course_x" = some (Value.str "inner") ∧
    joinedData [raceWithCourseX] [] =
      [[("course", Value.str "Tokyo"), ("course_x", Value.null), ("course_y", Value.null)]] ∧
    own? (joinRace (coordMap []) raceWithCourseX) "course_x" ≠ own? raceWithCourseX "course_x" := by
  decide

theorem joinedData_congr (races coords coords' : List JSObject)
    (h : ∀ k, lastMatching coords k = lastMatching coords' k) :
    joinedData races coords = joinedData races coords' := by
  unfold joinedData
  apply List.map_congr_left
  intro R _
  simp only [joinRace, get_coordMap, h]

theorem lastMatching_shadowed (A B : List JSObject) (c b : JSObject) (k : Value)
    (hb : b ∈ B) (hbc : sameValueZero (getProp b "name") (getProp c "name") = true) :
    lastMatching (A ++ [c] ++ B) k = lastMatching (A ++ B) k := by
  rw [lastMatching_append, lastMatching_append A B, lastMatching_append]
  cases hB : lastMatching B k with
  | some c' => rfl
  | none =>
    have hbk := (lastMatching_eq_none_iff B k).mp hB b hb
    have hck : sameValueZero (getProp c "name") k = false := by
      rw [← sameValueZero_congr_left hbc k]
      exact hbk
    simp [lastMatching, hck]

theorem lastMatching_perm {coords coords' : List JSObject} (hp : coords.Perm coords')
    (hd : coords.Pairwise fun a b => sameValueZero (getProp a "name") (getProp b "name") = false)
    (k : Value) : lastMatching coords k = lastMatching coords' k := by
  induction hp with
  | nil => rfl
  | cons x _ ih =>
    simp only [lastMatching, ih (List.pairwise_cons.mp hd).2]
  | swap x y l =>
    simp only [lastMatching]
    cases lastMatching l k with
    | some c' => rfl
    | none =>
      have hyx := (List.pairwise_cons.mp hd).1 x (List.mem_cons_self _ _)
      by_cases hx : sameValueZero (getProp x "name") k = true
      · have hy : sameValueZero (getProp y "name") k = false := by
          cases hy : sameValueZero (getProp y "name") k
          · rfl
          · rw [sameValueZero_symm] at hx
            rw [sameValueZero_trans hy hx] at hyx
            exact absurd hyx (by simp)
        simp [hx, hy]
      · simp only [Bool.not_eq_true] at hx
        cases hy : sameValueZero (getProp y "name") k <;> simp [hx]
  | trans h₁ _ ih₁ ih₂ =>
    have hsymm : ∀ a b : JSObject,
        sameValueZero (getProp a "name") (getProp b "name") = false →
        sameValueZero (getProp b "name") (getProp a "name") = false := by
      intro a b hab
      rw [sameValueZero_symm]
      exact hab
    exact (ih₁ hd).trans (ih₂ ((h₁.pairwise_iff (fun {a b} => hsymm a b)).mp hd))

/-- C10: the join sees the coordinate list only through the last record of each
name. Dropping a coordinate record `c` that is followed by a record of the same
name leaves the join unchanged; and when the names in the coordinate list are
pairwise different, every permutation of the list gives the same join. -/
theorem joinedData_last_name_only :
    (∀ (races A B : List JSObject) (c : JSObject),
      (∃ b ∈ B, sameValueZero (getProp b "name") (getProp c "name") = true) →
        joinedData races (A ++ [c] ++ B) = joinedData races (A ++ B)) ∧
    (∀ (races coords coords' : List JSObject),
      coords.Pairwise (fun a b => sameValueZero (getProp a "name") (getProp b "name") = false) →
      coords.Perm coords' →
        joinedData races coords = joinedData races coords') := by
  constructor
  · rintro races A B c ⟨b, hb, hbc⟩
    exact joinedData_congr races _ _ fun k => lastMatching_shadowed A B c b k hb hbc
  · intro races coords coords' hd hp
    exact joinedData_congr races _ _ fun k => lastMatching_perm hp hd k

/-! ## Property order -/

theorem keys_replaceProp (o : JSObject) (k : String) (v : Value) :
    keys (replaceProp k v o) = keys o := by
  induction o with
  | nil => rfl
  | cons e rest ih =>
    obtain ⟨k0, v0⟩ := e
    by_cases h0 : k0 = k
    · simp [replaceProp, h0, keys]
    · simp only [replaceProp, h0, if_false, keys, List.map_cons] at ih ⊢
      rw [ih]

theorem keys_setProp_of_mem (o : JSObject) (k : String) (v : Value) (h : k ∈ keys o) :
    keys (setProp o k v) = keys o := by
  unfold setProp
  cases hk : own? o k with
  | some w => exact keys_replaceProp o k v
  | none =>
    exfalso
    clear v
    induction o with
    | nil => simp [keys] at h
    | cons e rest ih =>
      obtain ⟨k0, v0⟩ := e
      by_cases h0 : k0 = k
      · simp [own?, h0] at hk
      · simp only [own?, h0, if_false] at hk
        simp only [keys, List.map_cons, List.mem_cons] at h
        rcases h with h | h
        · exact h0 h.symm
        · exact ih h hk

theorem keys_setProp_of_not_mem (o : JSObject) (k : String) (v : Value) (h : k ∉ keys o)
    (hidx : arrayIndex? k = none) : keys (setProp o k v) = keys o ++ [k] := by
  unfold setProp
  rw [own?_eq_none h]
  simp [hidx, keys]

theorem keys_insertIndex (o : JSObject) (n : Nat) (k : String) (v : Value)
    (h : ∀ k' ∈ keys o, ∃ m, arrayIndex? k' = some m ∧ m < n) :
    keys (insertIndex n k v o) = keys o ++ [k] := by
  induction o with
  | nil => rfl
  | cons e rest ih =>
    obtain ⟨k0, v0⟩ := e
    obtain ⟨m, hm, hlt⟩ := h k0 (by simp [keys])
    have hrest := ih fun k' hk' => h k' (by
      simp only [keys, List.map_cons, List.mem_cons] at hk' ⊢
      exact Or.inr hk')
    simp only [insertIndex, hm, hlt, if_true, keys, List.map_cons, List.cons_append] at hrest ⊢
    rw [hrest]

/-- A new property whose name is enumerated after all the names present is
enumerated last. -/
theorem keys_setProp_append (o : JSObject) (k : String) (v : Value) (hnot : k ∉ keys o)
    (hbef : ∀ k' ∈ keys o, enumeratesBefore k' k = true) :
    keys (setProp o k v) = keys o ++ [k] := by
  cases hidx : arrayIndex? k with
  | none => exact keys_setProp_of_not_mem o k v hnot hidx
  | some n =>
    unfold setProp
    rw [own?_eq_none hnot]
    simp only [hidx]
    apply keys_insertIndex
    intro k' hk'
    have := hbef k' hk'
    unfold enumeratesBefore at this
    rw [hidx] at this
    cases hk : arrayIndex? k' with
    | none => simp [hk] at this
    | some m => exact ⟨m, rfl, by simpa [hk] using this⟩

theorem keys_foldl_setProp {α : Type} (key : α → String) (val : α → Value) (l : List α)
    (acc : JSObject) (hnd : (keys acc ++ l.map key).Nodup)
    (hord : (keys acc ++ l.map key).Pairwise fun a b => enumeratesBefore a b = true) :
    keys (l.foldl (fun o a => setProp o (key a) (val a)) acc) = keys acc ++ l.map key := by
  induction l generalizing acc with
  | nil => simp
  | cons a rest ih =>
    have hnot : key a ∉ keys acc := by
      intro hmem
      have := List.nodup_append.mp hnd
      exact this.2.2 hmem (List.mem_cons_self _ _)
    have hbef : ∀ k' ∈ keys acc, enumeratesBefore k' (key a) = true := by
      intro k' hk'
      exact (List.pairwise_append.mp hord).2.2 k' hk' (key a) (List.mem_cons_self _ _)
    have hstep : keys (setProp acc (key a) (val a)) = keys acc ++ [key a] :=
      keys_setProp_append acc (key a) (val a) hnot hbef
    simp only [List.foldl_cons]
    rw [ih (setProp acc (key a) (val a))
      (by rw [hstep]; simpa [List.append_assoc] using hnd)
      (by rw [hstep]; simpa [List.append_assoc] using hord), hstep]
    simp [List.append_assoc]

theorem keys_spread (o : JSObject) (hnd : (keys o).Nodup)
    (hord : (keys o).Pairwise fun a b => enumeratesBefore a b = true) :
    keys (spread o) = keys o := by
  unfold spread
  have := keys_foldl_setProp (fun kv : String × Value => kv.1) (fun kv => kv.2) o []
    (by simpa [keys] using hnd) (by simpa [keys] using hord)
  simpa [keys] using this

theorem keys_rowObject (header : List String) (row : List Value) (hnd : header.Nodup)
    (hord : header.Pairwise fun a b => enumeratesBefore a b = true) :
    keys (rowObject header row) = header := by
  unfold rowObject
  have hsnd : header.enum.map (fun ik : Nat × String => ik.2) = header :=
    List.enum_map_snd header
  have := keys_foldl_setProp (fun ik : Nat × String => ik.2)
    (fun ik => row.getD ik.1 Value.null) header.enum []
    (by rw [hsnd]; simpa [keys] using hnd)
    (by rw [hsnd]; simpa [keys] using hord)
  rw [this, hsnd]
  rfl

/-- The property names of a joined record: those of the race in their order,
then `course_x` and `course_y` unless the race has them already. -/
theorem keys_joinRace (cm : JSMap JSObject) (race : JSObject) (hnd : (keys race).Nodup)
    (hidx : (keys race).Pairwise fun a b => enumeratesBefore a b = true) :
    keys (joinRace cm race) = expectedHeader (keys race) := by
  have hx : arrayIndex? "course_x" = none := by decide
  have hy : arrayIndex? "course_y" = none := by decide
  have hxy : ¬ "course_y" = "course_x" := by decide
  unfold joinRace expectedHeader
  simp only
  by_cases h1 : "course_x" ∈ keys race
  · have e1 := keys_setProp_of_mem (spread race) "course_x"
      (orNull (JSMap.get cm (getProp race "course")) "x") (by rw [keys_spread race hnd hidx]; exact h1)
    by_cases h2 : "course_y" ∈ keys race
    · rw [keys_setProp_of_mem _ _ _ (by rw [e1, keys_spread race hnd hidx]; exact h2), e1,
        keys_spread race hnd hidx]
      simp [h1, h2]
    · rw [keys_setProp_of_not_mem _ _ _ (by rw [e1, keys_spread race hnd hidx]; exact h2) hy, e1,
        keys_spread race hnd hidx]
      simp [h1, h2]
  · have e1 := keys_setProp_of_not_mem (spread race) "course_x"
      (orNull (JSMap.get cm (getProp race "course")) "x")
      (by rw [keys_spread race hnd hidx]; exact h1) hx
    by_cases h2 : "course_y" ∈ keys race
    · rw [keys_setProp_of_mem _ _ _
        (by rw [e1, keys_spread race hnd hidx]; exact List.mem_append_left _ h2), e1,
        keys_spread race hnd hidx]
      simp [h1, h2]
    · rw [keys_setProp_of_not_mem _ _ _
        (by rw [e1, keys_spread race hnd hidx]; simp [h2, hxy]) hy, e1,
        keys_spread race hnd hidx]
      simp [h1, h2]

theorem expectedHeader_nodup (K : List String) (hnd : K.Nodup) : (expectedHeader K).Nodup := by
  unfold expectedHeader
  by_cases h1 : "course_x" ∈ K <;> by_cases h2 : "course_y" ∈ K <;>
    simp [h1, h2, List.nodup_append, hnd]

theorem foldl_addColumn_of_subset (l cols : List String) (h : ∀ k ∈ l, k ∈ cols) :
    l.foldl (fun cols k => if k ∈ cols then cols else cols ++ [k]) cols = cols := by
  induction l with
  | nil => rfl
  | cons k rest ih =>
    simp only [List.foldl_cons, h k (List.mem_cons_self _ _), if_true]
    exact ih fun k' hk' => h k' (List.mem_cons_of_mem _ hk')

theorem foldl_addColumn_of_nodup (l cols : List String) (h : (cols ++ l).Nodup) :
    l.foldl (fun cols k => if k ∈ cols then cols else cols ++ [k]) cols = cols ++ l := by
  induction l generalizing cols with
  | nil => simp
  | cons k rest ih =>
    have hnot : k ∉ cols := by
      intro hmem
      exact (List.nodup_append.mp h).2.2 hmem (List.mem_cons_self _ _)
    simp only [List.foldl_cons, hnot, if_false]
    rw [ih (cols ++ [k]) (by simpa [List.append_assoc] using h)]
    simp [List.append_assoc]

/-- Records that all have the same property names in the same order give
exactly these columns. -/
theorem columnsOf_of_same_keys (rows : List JSObject) (L : List String) (hne : rows ≠ [])
    (hnd : L.Nodup) (hrows : ∀ r ∈ rows, keys r = L) : columnsOf rows = L := by
  unfold columnsOf
  cases rows with
  | nil => exact absurd rfl hne
  | cons r rest =>
    simp only [List.foldl_cons]
    rw [hrows r (List.mem_cons_self _ _), foldl_addColumn_of_nodup L [] (by simpa using hnd)]
    simp only [List.nil_append]
    have hrest : ∀ r' ∈ rest, keys r' = L := fun r' hr' => hrows r' (List.mem_cons_of_mem _ hr')
    clear hne hrows
    induction rest with
    | nil => rfl
    | cons r' rest' ih =>
      simp only [List.foldl_cons]
      rw [hrest r' (List.mem_cons_self _ _), foldl_addColumn_of_subset L L fun _ hk => hk]
      exact ih fun r'' hr'' => hrest r'' (List.mem_cons_of_mem _ hr'')

/-! ## The claims about the run -/

theorem script_of_races_unreadable (env : Env) (out : List String) (e : Thrown)
    (h : env.readFileSync "races.csv" = .error e) : script env out = (.error e, out) := by
  simp only [script, h]

theorem script_of_coords_unreadable (env : Env) (out : List String) (e : Thrown)
    (h : env.readFileSync "racecourseCoords.csv" = .error e) :
    ∃ e', script env out = (.error e', out) := by
  cases h1 : env.readFileSync "races.csv" with
  | error e' => exact ⟨e', by simp only [script, h1]⟩
  | ok racesRaw => exact ⟨e, by simp only [script, h1, h]⟩

/-- Every way the script can end: an exception with the output untouched, or
all five calls returned and the formatted join was written as one chunk. -/
theorem script_cases (env : Env) (out : List String) :
    (∃ e, script env out = (.error e, out)) ∨
    ∃ racesRaw coordsRaw races coords text,
      env.readFileSync "races.csv" = .ok racesRaw ∧
      env.readFileSync "racecourseCoords.csv" = .ok coordsRaw ∧
      env.csvParse racesRaw = .ok races ∧
      env.csvParse coordsRaw = .ok coords ∧
      env.csvFormat (joinedData races coords) = .ok text ∧
      script env out = (.ok (), out ++ [text]) := by
  cases h1 : env.readFileSync "races.csv" with
  | error e => exact Or.inl ⟨e, by simp only [script, h1]⟩
  | ok racesRaw =>
    cases h2 : env.readFileSync "racecourseCoords.csv" with
    | error e => exact Or.inl ⟨e, by simp only [script, h1, h2]⟩
    | ok coordsRaw =>
      cases h3 : env.csvParse racesRaw with
      | error e => exact Or.inl ⟨e, by simp only [script, h1, h2, h3]⟩
      | ok races =>
        cases h4 : env.csvParse coordsRaw with
        | error e => exact Or.inl ⟨e, by simp only [script, h1, h2, h3, h4]⟩
        | ok coords =>
          cases h5 : env.csvFormat (joinedData races coords) with
          | error e => exact Or.inl ⟨e, by simp only [script, h1, h2, h3, h4, h5]⟩
          | ok text =>
            exact Or.inr ⟨racesRaw, coordsRaw, races, coords, text, rfl, rfl, h3, h4, h5,
              by simp only [script, h1, h2, h3, h4, h5]⟩

theorem run_of_script_error (env : Env) (e : Thrown) (h : script env [] = (.error e, [])) :
    (run env).stdout = [] ∧ (run env).exitCode = 1 := by
  simp [run, h]

/-- C7: when reading `races.csv` or `racecourseCoords.csv` throws, the run ends
with a non-zero exit code and nothing written to standard output; and whenever
anything is written, both reads, both parses and the join have completed and
the output is the single chunk `csvFormat(joinedData)`. -/
theorem run_read_failure_writes_nothing :
    (∀ env : Env,
      ((∃ e, env.readFileSync "races.csv" = .error e) ∨
        (∃ e, env.readFileSync "racecourseCoords.csv" = .error e)) →
      (run env).stdout = [] ∧ (run env).exitCode ≠ 0) ∧
    (∀ env : Env, (run env).stdout ≠ [] →
      ∃ racesRaw coordsRaw races coords text,
        env.readFileSync "races.csv" = .ok racesRaw ∧
        env.readFileSync "racecourseCoords.csv" = .ok coordsRaw ∧
        env.csvParse racesRaw = .ok races ∧
        env.csvParse coordsRaw = .ok coords ∧
        env.csvFormat (joinedData races coords) = .ok text ∧
        (run env).stdout = [text] ∧ (run env).exitCode = 0) := by
  constructor
  · intro env h
    have herr : ∃ e, script env [] = (.error e, []) := by
      rcases h with ⟨e, h⟩ | ⟨e, h⟩
      · exact ⟨e, script_of_races_unreadable env [] e h⟩
      · exact script_of_coords_unreadable env [] e h
    obtain ⟨e, he⟩ := herr
    have := run_of_script_error env e he
    exact ⟨this.1, by rw [this.2]; decide⟩
  · intro env hout
    rcases script_cases env [] with ⟨e, he⟩ | ⟨racesRaw, coordsRaw, races, coords, text, h1, h2, h3, h4, h5, hs⟩
    · exact absurd (run_of_script_error env e he).1 hout
    · exact ⟨racesRaw, coordsRaw, races, coords, text, h1, h2, h3, h4, h5,
        by simp [run, hs], by simp [run, hs]⟩

/-- C9, as the code has it: the script checks no grammar of its own. With both
files readable, if `csvParse` throws on the content of either file the run
ends with a non-zero exit code and nothing written to standard output; and if
`csvParse` returns on both contents, whatever they are, and `csvFormat`
returns, the formatted join is written as one chunk and the exit code is `0`. -/
theorem run_follows_the_loader
    (env : Env) (racesRaw coordsRaw : String)
    (hr : env.readFileSync "races.csv" = .ok racesRaw)
    (hc : env.readFileSync "racecourseCoords.csv" = .ok coordsRaw) :
    (((∃ e, env.csvParse racesRaw = .error e) ∨ (∃ e, env.csvParse coordsRaw = .error e)) →
      (run env).stdout = [] ∧ (run env).exitCode ≠ 0) ∧
    (∀ races coords text,
      env.csvParse racesRaw = .ok races → env.csvParse coordsRaw = .ok coords →
      env.csvFormat (joinedData races coords) = .ok text →
      run env = { stdout := [text], exitCode := 0 }) := by
  constructor
  · intro hbad
    have herr : ∃ e, script env [] = (.error e, []) := by
      rcases script_cases env [] with h | ⟨r, c, races, coords, text, h1, h2, h3, h4, _, _⟩
      · exact h
      · exfalso
        rw [hr] at h1
        rw [hc] at h2
        cases h1
        cases h2
        rcases hbad with ⟨e, he⟩ | ⟨e, he⟩
        · rw [he] at h3
          cases h3
        · rw [he] at h4
          cases h4
    obtain ⟨e, he⟩ := herr
    have := run_of_script_error env e he
    exact ⟨this.1, by rw [this.2]; decide⟩
  · intro races coords text h3 h4 h5
    simp [run, script, hr, hc, h3, h4, h5]

/-- C9 fails as stated: the script has no grammar check, so with a loader that
returns on a `races.csv` whose content ends inside a quoted field, the run
writes its output and exits with `0`. -/
theorem run_unterminated_quote_writes_output :
    unbalancedQuoting "course\n\"Tokyo" = true ∧
    envUnterminatedQuote.readFileSync "races.csv" = .ok "course\n\"Tokyo" ∧
    envUnterminatedQuote.csvParse "course\n\"Tokyo" = .ok [[("course", Value.str "Tokyo")]] ∧
    run envUnterminatedQuote = { stdout := ["course,course_x,course_y"], exitCode := 0 } :=
  ⟨by decide, rfl, rfl, by decide⟩

/-! ## The claims about the columns -/

/-- C8, as the code has it: for a races file with at least one data line whose
column names are pairwise different and stand in the order in which an object
enumerates them (names that are array indices, if there are any, first and
ascending), the header of the output is the header of the file in file order,
followed by `course_x` and then `course_y` (each only when the file has no such
column), and the line of every joined record holds its fields in that column
order. -/
theorem output_header_of_plain_columns
    (t : Table) (coords : List JSObject)
    (hrows : t.rows ≠ []) (hnd : t.header.Nodup)
    (hidx : t.header.Pairwise fun a b => enumeratesBefore a b = true) :
    (outputCells t coords).header = expectedHeader t.header ∧
    ∀ (i : Nat) (J : JSObject), (joinedData (recordsOf t) coords)[i]? = some J →
      (outputCells t coords).rows[i]? = some ((expectedHeader t.header).map (getProp J)) := by
  have hkeys : ∀ J ∈ joinedData (recordsOf t) coords, keys J = expectedHeader t.header := by
    intro J hJ
    simp only [joinedData, recordsOf, List.map_map, List.mem_map] at hJ
    obtain ⟨row, _, rfl⟩ := hJ
    have hrow := keys_rowObject t.header row hnd hidx
    simp only [Function.comp_apply]
    rw [keys_joinRace _ _ (by rw [hrow]; exact hnd) (by rw [hrow]; exact hidx), hrow]
  have hne : joinedData (recordsOf t) coords ≠ [] := by
    simp [joinedData, recordsOf, hrows]
  have hcols := columnsOf_of_same_keys _ _ hne (expectedHeader_nodup _ hnd) hkeys
  refine ⟨hcols, ?_⟩
  intro i J hJ
  simp only [outputCells, formatCells, List.getElem?_map, hJ, Option.map_some', hcols]

/-- C8 fails as stated: a column named `1` moves to the front of the output
header; a column name that occurs twice occurs once in the output header; and
a file that has only a header line gives no output header at all. -/
theorem output_header_differs_from_file :
    (outputCells indexColumnTable []).header = ["1", "course", "course_x", "course_y"] ∧
    expectedHeader indexColumnTable.header = ["course", "1", "course_x", "course_y"] ∧
    (outputCells repeatedColumnTable []).header = ["course", "course_x", "course_y"] ∧
    expectedHeader repeatedColumnTable.header = ["course", "course", "course_x", "course_y"] ∧
    (outputCells headerOnlyTable []).header = [] ∧
    expectedHeader headerOnlyTable.header = ["course", "distance", "course_x", "course_y"] := by
  decide

/-! ## Formatting and loading again -/

theorem own?_foldl_setProp_of_nodup {α : Type} (key : α → String) (val : α → Value)
    (l : List α) (acc : JSObject) (k : String) (hnd : (l.map key).Nodup) :
    own? (l.foldl (fun o a => setProp o (key a) (val a)) acc) k =
      match l.find? (fun a => decide (key a = k)) with
      | some a => some (val a)
      | none => own? acc k := by
  induction l generalizing acc with
  | nil => rfl
  | cons a rest ih =>
    simp only [List.map_cons, List.nodup_cons] at hnd
    simp only [List.foldl_cons, ih _ hnd.2, own?_setProp, List.find?_cons]
    by_cases h0 : key a = k
    · have hnone : rest.find? (fun b => decide (key b = k)) = none := by
        rw [List.find?_eq_none]
        intro b hb hbk
        simp only [decide_eq_true_eq] at hbk
        exact hnd.1 (by rw [h0, ← hbk]; exact List.mem_map_of_mem key hb)
      simp [h0, hnone]
    · simp [h0]

theorem keys_insertIndex_perm (o : JSObject) (n : Nat) (k : String) (v : Value) :
    (keys (insertIndex n k v o)).Perm (k :: keys o) := by
  induction o with
  | nil => exact List.Perm.refl _
  | cons e rest ih =>
    obtain ⟨k0, v0⟩ := e
    unfold insertIndex
    split
    · split
      · exact (List.Perm.cons k0 ih).trans (List.Perm.swap k k0 (keys rest))
      · exact List.Perm.refl _
    · exact List.Perm.refl _

/-- An object never has two properties of the same name. -/
theorem nodup_keys_setProp (o : JSObject) (k : String) (v : Value) (h : (keys o).Nodup) :
    (keys (setProp o k v)).Nodup := by
  by_cases hk : k ∈ keys o
  · rw [keys_setProp_of_mem o k v hk]
    exact h
  · cases hidx : arrayIndex? k with
    | none =>
      rw [keys_setProp_of_not_mem o k v hk hidx]
      exact List.nodup_append.mpr ⟨h, List.nodup_singleton k, by
        intro a ha hb
        rw [List.mem_singleton] at hb
        exact hk (hb ▸ ha)⟩
    | some n =>
      unfold setProp
      rw [own?_eq_none hk]
      simp only [hidx]
      exact (keys_insertIndex_perm o n k v).nodup_iff.mpr (List.nodup_cons.mpr ⟨hk, h⟩)

theorem nodup_keys_foldl_setProp {α : Type} (key : α → String) (val : α → Value)
    (l : List α) (acc : JSObject) (h : (keys acc).Nodup) :
    (keys (l.foldl (fun o a => setProp o (key a) (val a)) acc)).Nodup := by
  induction l generalizing acc with
  | nil => exact h
  | cons a rest ih => exact ih _ (nodup_keys_setProp acc (key a) (val a) h)

theorem nodup_keys_rowObject (header : List String) (row : List Value) :
    (keys (rowObject header row)).Nodup :=
  nodup_keys_foldl_setProp _ _ _ [] List.nodup_nil

theorem foldl_addColumn_spec (l cols : List String) (h : cols.Nodup) :
    (l.foldl (fun cols k => if k ∈ cols then cols else cols ++ [k]) cols).Nodup ∧
    ∀ k, k ∈ l.foldl (fun cols k => if k ∈ cols then cols else cols ++ [k]) cols ↔
      k ∈ cols ∨ k ∈ l := by
  induction l generalizing cols with
  | nil => exact ⟨h, fun k => by simp⟩
  | cons a rest ih =>
    simp only [List.foldl_cons]
    by_cases ha : a ∈ cols
    · simp only [ha, if_true]
      refine ⟨(ih cols h).1, fun k => ?_⟩
      rw [(ih cols h).2 k, List.mem_cons]
      constructor
      · rintro (hk | hk)
        · exact Or.inl hk
        · exact Or.inr (Or.inr hk)
      · rintro (hk | rfl | hk)
        · exact Or.inl hk
        · exact Or.inl ha
        · exact Or.inr hk
    · simp only [ha, if_false]
      have hnd : (cols ++ [a]).Nodup :=
        List.nodup_append.mpr ⟨h, List.nodup_singleton a, by
          intro b hb hb'
          rw [List.mem_singleton] at hb'
          exact ha (hb' ▸ hb)⟩
      refine ⟨(ih _ hnd).1, fun k => ?_⟩
      rw [(ih _ hnd).2 k, List.mem_append, List.mem_singleton, List.mem_cons]
      constructor
      · rintro ((hk | hk) | hk)
        · exact Or.inl hk
        · exact Or.inr (Or.inl hk)
        · exact Or.inr (Or.inr hk)
      · rintro (hk | hk | hk)
        · exact Or.inl (Or.inl hk)
        · exact Or.inl (Or.inr hk)
        · exact Or.inr hk

theorem foldl_columns_spec (rows : List JSObject) (cols : List String) (h : cols.Nodup) :
    (rows.foldl (fun cols row =>
        (keys row).foldl (fun cols k => if k ∈ cols then cols else cols ++ [k]) cols) cols).Nodup ∧
    ∀ k, k ∈ cols ∨ (∃ r ∈ rows, k ∈ keys r) →
      k ∈ rows.foldl (fun cols row =>
        (keys row).foldl (fun cols k => if k ∈ cols then cols else cols ++ [k]) cols) cols := by
  induction rows generalizing cols with
  | nil =>
    refine ⟨h, fun k hk => ?_⟩
    rcases hk with hk | ⟨r, hr, _⟩
    · exact hk
    · cases hr
  | cons r rest ih =>
    simp only [List.foldl_cons]
    have hstep := foldl_addColumn_spec (keys r) cols h
    refine ⟨(ih _ hstep.1).1, fun k hk => ?_⟩
    apply (ih _ hstep.1).2 k
    rcases hk with hk | ⟨r', hr', hk⟩
    · exact Or.inl ((hstep.2 k).mpr (Or.inl hk))
    · rcases List.mem_cons.mp hr' with rfl | hr'
      · exact Or.inl ((hstep.2 k).mpr (Or.inr hk))
      · exact Or.inr ⟨r', hr', hk⟩

/-- The inferred columns are pairwise different and hold every field name of
every record. -/
theorem columnsOf_spec (rows : List JSObject) :
    (columnsOf rows).Nodup ∧ ∀ r ∈ rows, ∀ k ∈ keys r, k ∈ columnsOf rows := by
  have := foldl_columns_spec rows [] List.nodup_nil
  exact ⟨this.1, fun r hr k hk => this.2 k (Or.inr ⟨r, hr, hk⟩)⟩

/-- Loading the line that the formatter wrote for a record gives, under every
column, the value the record has there. -/
theorem own?_rowObject_map (header : List String) (f : String → Value) (k : String)
    (hnd : header.Nodup) (hk : k ∈ header) :
    own? (rowObject header (header.map f)) k = some (f k) := by
  have hsnd : header.enum.map (fun ik : Nat × String => ik.2) = header :=
    List.enum_map_snd header
  unfold rowObject
  rw [own?_foldl_setProp_of_nodup (fun ik : Nat × String => ik.2)
    (fun ik => (header.map f).getD ik.1 Value.null) header.enum [] k (by rw [hsnd]; exact hnd)]
  cases hfind : header.enum.find? (fun a => decide (a.2 = k)) with
  | none =>
    exfalso
    rw [List.find?_eq_none] at hfind
    obtain ⟨i, hi, hik⟩ := List.getElem_of_mem hk
    have hmem : (i, k) ∈ header.enum := by
      rw [List.mk_mem_enum_iff_getElem?, List.getElem?_eq_getElem hi, hik]
    exact hfind (i, k) hmem (by simp)
  | some a =>
    have hak : a.2 = k := by simpa using List.find?_some hfind
    have hmem : header[a.1]? = some a.2 :=
      List.mem_enum_iff_getElem?.mp (List.mem_of_find?_eq_some hfind)
    simp [List.getD_eq_getElem?_getD, List.getElem?_map, hmem, hak]

theorem getElem?_recordsOf_formatCells (rows : List JSObject) (i : Nat) :
    (recordsOf (formatCells rows))[i]? =
      (rows[i]?).map fun r => rowObject (columnsOf rows) ((columnsOf rows).map (getProp r)) := by
  simp only [recordsOf, formatCells, List.getElem?_map, Option.map_map]
  rfl

/-- Formatting records and loading the result gives, row for row, records with
every field of the original at its value. -/
theorem own?_recordsOf_formatCells (rows : List JSObject) (i : Nat) (J : JSObject)
    (k : String) (v : Value) (hJ : rows[i]? = some J) (hk : own? J k = some v) :
    ∃ J', (recordsOf (formatCells rows))[i]? = some J' ∧ own? J' k = some v := by
  refine ⟨rowObject (columnsOf rows) ((columnsOf rows).map (getProp J)),
    by rw [getElem?_recordsOf_formatCells, hJ]; rfl, ?_⟩
  have hmem : k ∈ keys J := by
    by_contra hnot
    rw [own?_eq_none hnot] at hk
    cases hk
  rw [own?_rowObject_map _ _ k (columnsOf_spec rows).1
    ((columnsOf_spec rows).2 J (List.getElem?_mem hJ) k hmem)]
  simp [getProp, hk]

/-! ## The claim about the round trip -/

/-- C6, as the code has it: formatting the joined records of a races file and
loading the result again gives as many records as the file has data lines
and, row for row, records in which every field of the original race record
other than `course_x` and `course_y` has its original typed value. -/
theorem round_trip_keeps_race_fields
    (t : Table) (coords : List JSObject) (i : Nat) (R : JSObject) (k : String) (v : Value)
    (hR : (recordsOf t)[i]? = some R)
    (hx : k ≠ "course_x") (hy : k ≠ "course_y") (hk : own? R k = some v) :
    (recordsOf (outputCells t coords)).length = t.rows.length ∧
    ∃ J', (recordsOf (outputCells t coords))[i]? = some J' ∧ own? J' k = some v := by
  constructor
  · simp [recordsOf, outputCells, formatCells, joinedData]
  · have hwf : (keys R).Nodup := by
      simp only [recordsOf, List.getElem?_map] at hR
      cases hrow : t.rows[i]? with
      | none => simp [hrow] at hR
      | some row =>
        simp only [hrow, Option.map_some', Option.some.injEq] at hR
        rw [← hR]
        exact nodup_keys_rowObject t.header row
    have hJ : (joinedData (recordsOf t) coords)[i]? = some (joinRace (coordMap coords) R) := by
      simp [joinedData_getElem?, hR]
    have hJk : own? (joinRace (coordMap coords) R) k = some v := by
      rw [own?_joinRace, if_neg (Ne.symm hy), if_neg (Ne.symm hx), own?_spread R k hwf, hk]
    exact own?_recordsOf_formatCells _ i _ k v hJ hJk

/-- C6 fails as stated: the races file with header `course,course_x` and the
line `Tokyo,inner` has the field `course_x = "inner"`; after the join,
formatting and loading again, the record has `course_x = null`. -/
theorem round_trip_loses_course_x :
    recordsOf courseXColumnTable =
      [[("course", Value.str "Tokyo"), ("course_x", Value.str "inner")]] ∧
    recordsOf (outputCells courseXColumnTable []) =
      [[("course", Value.str "Tokyo"), ("course_x", Value.null), ("course_y", Value.null)]] := by
  decide

/-! ## The claims at concrete inputs -/

theorem joined_course_xy_of_last_match_witness :
    (joinedData [tokyoRace, unknownRace, tokyoRace] [tokyoCoord, tokyoCoordLater, kyotoCoord])[2]?
      = some [("course", Value.str "Tokyo"), ("distance", twoThousand),
          ("course_x", zero), ("course_y", Value.null)] ∧
    ∃ J, (joinedData [tokyoRace, unknownRace, tokyoRace]
        [tokyoCoord, tokyoCoordLater, kyotoCoord])[2]? = some J ∧
      getProp J "course_x" = getProp tokyoCoordLater "x" ∧
      getProp J "course_y" = getProp tokyoCoordLater "y" :=
  ⟨by decide,
   (joined_course_xy_of_last_match [tokyoRace, unknownRace, tokyoRace]
      [tokyoCoord, tokyoCoordLater, kyotoCoord] 2 tokyoRace (by decide)
      ⟨tokyoCoord, by decide, by decide⟩).elim
    fun J hJ => ⟨J, hJ.1,
      hJ.2.2 [tokyoCoord] tokyoCoordLater [kyotoCoord] (by decide) (by decide) (by decide)⟩⟩

theorem joined_course_xy_null_of_no_match_witness :
    joinedData [unknownRace] [tokyoCoord] =
      [[("course", Value.str "Unknown"), ("distance", sixteenHundred),
        ("course_x", Value.null), ("course_y", Value.null)]] ∧
    ∃ J, (joinedData [unknownRace] [tokyoCoord])[0]? = some J ∧
      getProp J "course_x" = Value.null ∧ getProp J "course_y" = Value.null :=
  ⟨by decide,
   joined_course_xy_null_of_no_match [unknownRace] [tokyoCoord] 0 unknownRace
    (by decide) (by decide)⟩

theorem joinedData_preserves_order_witness :
    ∃ J, (joinedData [unknownRace, tokyoRace] [tokyoCoord])[1]? = some J ∧
      J = joinRace (coordMap [tokyoCoord]) tokyoRace ∧
      getProp J "course" = getProp tokyoRace "course" ∧
      getProp J "course_x" =
        orNull (JSMap.get (coordMap [tokyoCoord]) (getProp tokyoRace "course")) "x" ∧
      getProp J "course_y" =
        orNull (JSMap.get (coordMap [tokyoCoord]) (getProp tokyoRace "course")) "y" :=
  joinedData_preserves_order [unknownRace, tokyoRace] [tokyoCoord] 1 tokyoRace
    (by decide) (by decide)

theorem joined_keeps_race_fields_witness :
    ∃ J, (joinedData [tokyoRace] [tokyoCoord])[0]? = some J ∧
      own? J "distance" = some twoThousand :=
  joined_keeps_race_fields [tokyoRace] [tokyoCoord] 0 tokyoRace "distance" twoThousand
    (by decide) (by decide) (by decide) (by decide) (by decide)

theorem joinedData_last_name_only_witness :
    joinedData [tokyoRace] ([kyotoCoord] ++ [tokyoCoord] ++ [tokyoCoordLater]) =
      joinedData [tokyoRace] ([kyotoCoord] ++ [tokyoCoordLater]) ∧
    joinedData [tokyoRace] [kyotoCoord, tokyoCoord] =
      joinedData [tokyoRace] [tokyoCoord, kyotoCoord] :=
  ⟨joinedData_last_name_only.1 [tokyoRace] [kyotoCoord] [tokyoCoordLater] tokyoCoord
      ⟨tokyoCoordLater, by decide, by decide⟩,
   joinedData_last_name_only.2 [tokyoRace] [kyotoCoord, tokyoCoord] [tokyoCoord, kyotoCoord]
      (by decide) (List.Perm.swap _ _ _)⟩

theorem run_read_failure_writes_nothing_witness :
    run envRacesMissing = { stdout := [], exitCode := 1 } ∧
    ((run envRacesMissing).stdout = [] ∧ (run envRacesMissing).exitCode ≠ 0) ∧
    run envBothReadable = { stdout := [""], exitCode := 0 } ∧
    ∃ racesRaw coordsRaw races coords text,
      envBothReadable.readFileSync "races.csv" = .ok racesRaw ∧
      envBothReadable.readFileSync "racecourseCoords.csv" = .ok coordsRaw ∧
      envBothReadable.csvParse racesRaw = .ok races ∧
      envBothReadable.csvParse coordsRaw = .ok coords ∧
      envBothReadable.csvFormat (joinedData races coords) = .ok text ∧
      (run envBothReadable).stdout = [text] ∧ (run envBothReadable).exitCode = 0 :=
  ⟨by decide,
   run_read_failure_writes_nothing.1 envRacesMissing
    (Or.inl ⟨Thrown.inputMissing "races.csv", rfl⟩),
   by decide,
   run_read_failure_writes_nothing.2 envBothReadable (by decide)⟩

theorem run_follows_the_loader_witness :
    ((run envParseThrows).stdout = [] ∧ (run envParseThrows).exitCode ≠ 0) ∧
    run envUnterminatedQuote = { stdout := ["course,course_x,course_y"], exitCode := 0 } :=
  ⟨(run_follows_the_loader envParseThrows "course\n\"Tokyo" "name,x,y\nTokyo,10,20"
      rfl rfl).1 (Or.inl ⟨Thrown.parseMalformed, rfl⟩),
   (run_follows_the_loader envUnterminatedQuote "course\n\"Tokyo" "name,x,y\nTokyo,10,20"
      rfl rfl).2 [[("course", Value.str "Tokyo")]] [tokyoCoord] "course,course_x,course_y"
      rfl rfl rfl⟩

theorem output_header_of_plain_columns_witness :
    (outputCells scenarioTable [tokyoCoord]).header =
      ["course", "distance", "course_x", "course_y"] ∧
    (outputCells scenarioTable [tokyoCoord]).header = expectedHeader scenarioTable.header ∧
    ∀ (i : Nat) (J : JSObject), (joinedData (recordsOf scenarioTable) [tokyoCoord])[i]? = some J →
      (outputCells scenarioTable [tokyoCoord]).rows[i]? =
        some ((expectedHeader scenarioTable.header).map (getProp J)) :=
  ⟨by decide,
   output_header_of_plain_columns scenarioTable [tokyoCoord] (by decide) (by decide) (by decide)⟩

theorem round_trip_keeps_race_fields_witness :
    recordsOf (outputCells scenarioTable [tokyoCoord]) =
      [[("course", Value.str "Tokyo"), ("distance", twoThousand),
          ("course_x", ten), ("course_y", twenty)],
        [("course", Value.str "Unknown"), ("distance", sixteenHundred),
          ("course_x", Value.null), ("course_y", Value.null)]] ∧
    (recordsOf (outputCells scenarioTable [tokyoCoord])).length = scenarioTable.rows.length ∧
    ∃ J', (recordsOf (outputCells scenarioTable [tokyoCoord]))[1]? = some J' ∧
      own? J' "distance" = some sixteenHundred :=
  ⟨by decide,
   round_trip_keeps_race_fields scenarioTable [tokyoCoord] 1 unknownRace "distance"
    sixteenHundred (by decide) (by decide) (by decide) (by decide)⟩

end HorseDashboard
